import Mathlib

/-!
Shallow embedding of the `ennona` point-cloud viewer (rust-cv/ennona).

The embedding translates the Rust sources under `src/` into Lean:

* `src/camera.rs` — `Camera`, `CameraController` and their operations.
  `f32` scalars are modelled as exact rationals `ℚ`; `nalgebra`'s
  `IsometryMatrix3` is modelled as a rotation matrix plus a translation
  vector (`Iso`), with `append_translation_mut`/`append_rotation_mut`
  following nalgebra's semantics (`self ← T * self`, resp. `self ← R * self`).
  The trigonometric functions used by `Rotation3::from_euler_angles` are
  abstracted as parameters `sinq cosq : ℚ → ℚ`; the claims proved here never
  depend on their values (the rotation branches are not taken).
* `src/import.rs` — the PLY import path: fan tessellation of faces,
  de-duplication of face vertices through a map (modelled as an association
  list, matching `HashMap`'s lookup-or-insert use), and the partition of
  vertices into point vertices and face vertices.  Rust `usize`/`u32` casts
  are modelled by explicit `% 2^64` / `% 2^32` reductions, and the panicking
  slice index `all_vertices[index]` is modelled by `Option` (`none` = panic).
* `src/state/point_renderer.rs` — the per-frame compute-dispatch and draw
  commands issued by `PointRenderer::compute` / `PointRenderer::render`,
  as a function of `num_points`.  The `(n as f64 / 64.0).ceil() as u32`
  expression is exact for every `u32` `n` (all `u32` are exactly
  representable in `f64` and division by the power of two `64.0` is exact),
  so it is embedded as the natural-number ceiling division `(n + 63) / 64`.
* `src/import.rs` control flow (`import`) — outcome model distinguishing
  `ok`/`error`/`panicked` results, covering the `File::open(path).unwrap()`
  call, the `?`-propagated parser/decoder errors, and the unknown-extension
  error arm.
* IEEE special values, for the degenerate camera-framing path
  (`avg_vertex_position` / `avg_vertex_distance` with an empty vertex list):
  the carrier `F` is a finite rational together with `nan`/`±inf`.  Finite
  arithmetic is exact (rounding is irrelevant to the NaN-propagation facts
  proved here) and the two IEEE zeroes are conflated; `0/0 = nan` and
  NaN-propagation follow IEEE 754.  The square root used by
  `nalgebra::distance` is abstracted as a parameter.
-/

/-- Vector of three rationals (models `nalgebra::Vector3<f32>` / `Point3<f32>`). -/
structure Vec3 where
  x : ℚ
  y : ℚ
  z : ℚ
deriving DecidableEq

def Vec3.add (a b : Vec3) : Vec3 :=
  ⟨a.x + b.x, a.y + b.y, a.z + b.z⟩

def Vec3.sub (a b : Vec3) : Vec3 :=
  ⟨a.x - b.x, a.y - b.y, a.z - b.z⟩

def Vec3.neg (a : Vec3) : Vec3 :=
  ⟨-a.x, -a.y, -a.z⟩

def Vec3.smul (c : ℚ) (a : Vec3) : Vec3 :=
  ⟨c * a.x, c * a.y, c * a.z⟩

/-- Squared Euclidean norm of a `Vec3`. -/
def Vec3.sqNorm (a : Vec3) : ℚ :=
  a.x * a.x + a.y * a.y + a.z * a.z

/-- Matrix of size 3×3 over ℚ (models `nalgebra::Rotation3<f32>`'s matrix). -/
structure Mat3 where
  a00 : ℚ
  a01 : ℚ
  a02 : ℚ
  a10 : ℚ
  a11 : ℚ
  a12 : ℚ
  a20 : ℚ
  a21 : ℚ
  a22 : ℚ
deriving DecidableEq

def Mat3.id : Mat3 :=
  ⟨1, 0, 0, 0, 1, 0, 0, 0, 1⟩

def Mat3.mulVec (m : Mat3) (v : Vec3) : Vec3 :=
  ⟨m.a00 * v.x + m.a01 * v.y + m.a02 * v.z,
   m.a10 * v.x + m.a11 * v.y + m.a12 * v.z,
   m.a20 * v.x + m.a21 * v.y + m.a22 * v.z⟩

def Mat3.mul (m n : Mat3) : Mat3 :=
  ⟨m.a00 * n.a00 + m.a01 * n.a10 + m.a02 * n.a20,
   m.a00 * n.a01 + m.a01 * n.a11 + m.a02 * n.a21,
   m.a00 * n.a02 + m.a01 * n.a12 + m.a02 * n.a22,
   m.a10 * n.a00 + m.a11 * n.a10 + m.a12 * n.a20,
   m.a10 * n.a01 + m.a11 * n.a11 + m.a12 * n.a21,
   m.a10 * n.a02 + m.a11 * n.a12 + m.a12 * n.a22,
   m.a20 * n.a00 + m.a21 * n.a10 + m.a22 * n.a20,
   m.a20 * n.a01 + m.a21 * n.a11 + m.a22 * n.a21,
   m.a20 * n.a02 + m.a21 * n.a12 + m.a22 * n.a22⟩

def Mat3.transpose (m : Mat3) : Mat3 :=
  ⟨m.a00, m.a10, m.a20, m.a01, m.a11, m.a21, m.a02, m.a12, m.a22⟩

/-- Rigid transform: rotation plus translation
(models `nalgebra::IsometryMatrix3<f32>`; applying it sends `p` to
`rot * p + tr`). -/
structure Iso where
  rot : Mat3
  tr : Vec3
deriving DecidableEq

def Iso.apply (i : Iso) (p : Vec3) : Vec3 :=
  (i.rot.mulVec p).add i.tr

/-- Model of `IsometryMatrix3::translation(x, y, z)`. -/
def Iso.translationOf (x y z : ℚ) : Iso :=
  ⟨Mat3.id, ⟨x, y, z⟩⟩

/-- Isometry composition `a * b` (first apply `b`, then `a`). -/
def Iso.comp (a b : Iso) : Iso :=
  ⟨a.rot.mul b.rot, (a.rot.mulVec b.tr).add a.tr⟩

/-- nalgebra's `append_translation_mut`: `self ← T(t) * self`. -/
def Iso.appendTranslation (i : Iso) (t : Vec3) : Iso :=
  ⟨i.rot, i.tr.add t⟩

/-- nalgebra's `append_rotation_mut`: `self ← R * self`. -/
def Iso.appendRotation (i : Iso) (r : Mat3) : Iso :=
  ⟨r.mul i.rot, r.mulVec i.tr⟩

/-- Model of `Rotation3::from_euler_angles(0, 0, a)`, the roll rotation about `z`,
with sine and cosine abstracted as `sinq`/`cosq`. -/
def rotZMat (sinq cosq : ℚ → ℚ) (a : ℚ) : Mat3 :=
  ⟨cosq a, -(sinq a), 0, sinq a, cosq a, 0, 0, 0, 1⟩

/-- The `Camera` struct from `src/camera.rs` (scalars as exact rationals). -/
structure Camera where
  aspect : ℚ
  fovy : ℚ
  znear : ℚ
  zfar : ℚ
  view_matrix : Iso
deriving DecidableEq

/-- Model of `Camera::resize`: `self.aspect = width as f32 / height as f32`. -/
def Camera.resize (c : Camera) (width height : ℕ) : Camera :=
  { c with aspect := (width : ℚ) / (height : ℚ) }

/-- Model of `Camera::set_camera_facing` from `src/camera.rs`. -/
def Camera.set_camera_facing (c : Camera) (target : Vec3) (distance : ℚ) : Camera :=
  { c with
    zfar := 100 * distance
    znear := distance / 100
    view_matrix :=
      (Iso.translationOf 0 0 distance).comp
        (Iso.translationOf (-target.x) (-target.y) (-target.z)) }

/-- World-space camera placement encoded by the view transform: the point `p`
with `view p = 0`, namely `-R⁻¹ t = -Rᵀ t` for a rotation `R`. -/
def Camera.position (c : Camera) : Vec3 :=
  (c.view_matrix.rot.transpose.mulVec c.view_matrix.tr).neg

/-- The `CameraController` state from `src/camera.rs`. -/
structure CameraController where
  speed : ℚ
  sensitivity : ℚ
  is_up_pressed : Bool
  is_down_pressed : Bool
  is_forward_pressed : Bool
  is_backward_pressed : Bool
  is_left_pressed : Bool
  is_right_pressed : Bool
  is_counter_clock_pressed : Bool
  is_clock_pressed : Bool
  mouse_captured : Bool
  scroll : ℚ
deriving DecidableEq

/-- Model of `CameraController::new`. -/
def CameraController.new (speed sensitivity : ℚ) : CameraController :=
  { speed := speed
    sensitivity := sensitivity
    is_up_pressed := false
    is_down_pressed := false
    is_forward_pressed := false
    is_backward_pressed := false
    is_left_pressed := false
    is_right_pressed := false
    is_counter_clock_pressed := false
    is_clock_pressed := false
    mouse_captured := false
    scroll := 0 }

/-- Model of `winit::event::MouseScrollDelta` (payloads as exact rationals). -/
inductive MouseScrollDelta where
  | lineDelta (x y : ℚ)
  | pixelDelta (x y : ℚ)
deriving DecidableEq

/-- Model of `CameraController::process_scroll`: the scroll field is *assigned*
(`self.scroll = -…`), with line deltas scaled by 100. -/
def CameraController.process_scroll (c : CameraController) (delta : MouseScrollDelta) :
    CameraController :=
  { c with
    scroll :=
      -(match delta with
        | .lineDelta _ scroll => scroll * 100
        | .pixelDelta _ scroll => scroll) }

/-- Model of `CameraController::update_camera` from `src/camera.rs`: the eight `if`
branches, applied in source order to the camera's view transform.
`dt` is `dt.as_secs_f32()`. -/
def CameraController.update_camera (sinq cosq : ℚ → ℚ) (c : CameraController)
    (camera : Camera) (dt : ℚ) : Camera :=
  let v := camera.view_matrix
  let v := if c.is_forward_pressed then v.appendTranslation (Vec3.smul (dt * c.speed) ⟨0, 0, -1⟩) else v
  let v := if c.is_backward_pressed then v.appendTranslation (Vec3.smul (dt * c.speed) ⟨0, 0, 1⟩) else v
  let v := if c.is_right_pressed then v.appendTranslation (Vec3.smul (dt * c.speed) ⟨-1, 0, 0⟩) else v
  let v := if c.is_left_pressed then v.appendTranslation (Vec3.smul (dt * c.speed) ⟨1, 0, 0⟩) else v
  let v := if c.is_up_pressed then v.appendTranslation (Vec3.smul (dt * c.speed) ⟨0, 1, 0⟩) else v
  let v := if c.is_down_pressed then v.appendTranslation (Vec3.smul (dt * c.speed) ⟨0, -1, 0⟩) else v
  let v := if c.is_clock_pressed then v.appendRotation (rotZMat sinq cosq (dt * c.sensitivity * (-1/20))) else v
  let v := if c.is_counter_clock_pressed then v.appendRotation (rotZMat sinq cosq (dt * c.sensitivity * (1/20))) else v
  { camera with view_matrix := v }

/-- A controller holding only the forward flag (all other flags as in
`CameraController::new`). -/
def forwardOnly (speed sensitivity : ℚ) : CameraController :=
  { CameraController.new speed sensitivity with is_forward_pressed := true }

/-- The `Vertex` record from `src/state.rs` / `src/points.rs`: position and color,
each three `f32` scalars (modelled as exact rationals). -/
structure Vertex where
  position : Vec3
  color : Vec3
deriving DecidableEq

/-- Rust `i as usize` for `i : i32`, on a 64-bit target: two's-complement
reinterpretation modulo `2^64`. -/
def castUsize (i : ℤ) : ℕ :=
  (i % (2 ^ 64 : ℤ)).toNat

/-- Association-list lookup, modelling `HashMap::entry`'s key lookup
(keys are inserted at most once, so first-match lookup agrees with the map). -/
def lookupA : List (ℕ × ℕ) → ℕ → Option ℕ
  | [], _ => none
  | (k, v) :: rest, i => if k = i then some v else lookupA rest i

/-- The mutable state threaded through the face-tessellation loop in
`import` (`src/import.rs`): the `all_vertices_to_face_vertices` map, the
`face_vertices` vector and the `face_indices` vector (entries stored as
their `u32` values). -/
structure TessState where
  assoc : List (ℕ × ℕ)
  face_vertices : List Vertex
  face_indices : List ℕ
deriving DecidableEq

/-- Initial tessellation state (all three containers empty). -/
def tessInit : TessState :=
  ⟨[], [], []⟩

/-- The `get_or_insert_vertex` closure from `import`: look up the ply vertex
index, or append `all_vertices[index]` to `face_vertices` and record the new
position.  The panicking slice access `all_vertices[index]` is modelled by
`Option` (`none` = out-of-bounds panic). -/
def getOrInsertVertex (all_vertices : List Vertex) (s : TessState) (i : ℕ) :
    Option (ℕ × TessState) :=
  match lookupA s.assoc i with
  | some j => some (j, s)
  | none =>
    match all_vertices[i]? with
    | none => none
    | some v =>
      some (s.face_vertices.length,
        { assoc := (i, s.face_vertices.length) :: s.assoc
          face_vertices := s.face_vertices ++ [v]
          face_indices := s.face_indices })

/-- Sequentially map the indices of one face through `get_or_insert_vertex`
(the lazy `face_iter` calls it exactly once per index, in order). -/
def mapFaceIndices (all_vertices : List Vertex) (s : TessState) :
    List ℕ → Option (List ℕ × TessState)
  | [] => some ([], s)
  | i :: rest =>
    match getOrInsertVertex all_vertices s i with
    | none => none
    | some (j, s1) =>
      match mapFaceIndices all_vertices s1 rest with
      | none => none
      | some (js, s2) => some (j :: js, s2)

/-- Triangle-fan emission for the tail of a face, `first` being the shared
fan vertex: each adjacent pair `(second, third)` of the remaining indices
(`tuple_windows`) contributes the triple `[first, second, third]`. -/
def fanTail (first : ℕ) : List ℕ → List ℕ
  | second :: third :: rest => first :: second :: third :: fanTail first (third :: rest)
  | _ => []

/-- Fan triangulation of one face's mapped index list (`if let Some(first) =
face_iter.next()` followed by `tuple_windows`). -/
def fanIndices : List ℕ → List ℕ
  | [] => []
  | first :: rest => fanTail first rest

/-- Process one face: map its (usize-cast) indices through
`get_or_insert_vertex`, then extend `face_indices` with the fan triples,
each entry cast `as u32`. -/
def tessFace (all_vertices : List Vertex) (s : TessState) (face : List ℤ) :
    Option TessState :=
  match mapFaceIndices all_vertices s (face.map castUsize) with
  | none => none
  | some (js, s1) =>
    some { s1 with
            face_indices := s1.face_indices ++ (fanIndices js).map (fun x => x % 2 ^ 32) }

/-- The `for face in faces` tessellation loop. -/
def tessAll (all_vertices : List Vertex) : List (List ℤ) → TessState → Option TessState
  | [], s => some s
  | face :: rest, s =>
    match tessFace all_vertices s face with
    | none => none
    | some s1 => tessAll all_vertices rest s1

/-- The `PlyData` record from `src/import.rs`. -/
structure PlyData where
  point_vertices : List Vertex
  face_vertices : List Vertex
  face_indices : List ℕ
deriving DecidableEq

/-- The PLY branch of `import` after parsing: tessellate all faces, then keep
as point vertices exactly the parsed vertices whose index is not a key of
`all_vertices_to_face_vertices`.  `none` models the out-of-bounds panic. -/
def importPly (all_vertices : List Vertex) (faces : List (List ℤ)) : Option PlyData :=
  match tessAll all_vertices faces tessInit with
  | none => none
  | some s =>
    some
      { point_vertices :=
          ((all_vertices.enum.filter fun p => (lookupA s.assoc p.1).isNone).map Prod.snd)
        face_vertices := s.face_vertices
        face_indices := s.face_indices }

/-- Whether `i` is referenced by some face's index list (after the `as usize` cast). -/
def referencedB (faces : List (List ℤ)) (i : ℕ) : Bool :=
  faces.any fun f => f.any fun k => castUsize k = i

/-- Model state of `PointRenderer`: the `num_points` counter (a `u32`).
The GPU pipeline/buffer handles carry no further semantics here. -/
structure PointRenderer where
  num_points : ℕ
deriving DecidableEq

/-- Model of `PointRenderer::import_ply`: `num_points = point_vertices.len() as u32`. -/
def PointRenderer.import_ply (r : PointRenderer) (ply : PlyData) : PointRenderer :=
  { r with num_points := ply.point_vertices.length % 2 ^ 32 }

/-- The exact value of `(n as f64 / 64.0).ceil() as u32` for any `u32` `n`:
every `u32` is exact in `f64` and division by `64.0` is exact, so the
result is the ceiling division `(n + 63) / 64`. -/
def dispatchGroups (n : ℕ) : ℕ :=
  (n + 63) / 64

/-- The workgroup-dispatch calls `PointRenderer::compute` records:
one `dispatch(ceil(n/64), 1, 1)` when `num_points != 0`, none otherwise. -/
def PointRenderer.computeDispatches (r : PointRenderer) : List (ℕ × ℕ × ℕ) :=
  if r.num_points ≠ 0 then [(dispatchGroups r.num_points, 1, 1)] else []

/-- The draw calls `PointRenderer::render` records: one
`draw(0..num_points * 3, 0..1)` (vertex count `num_points * 3` in `u32`
arithmetic, one instance) when `num_points != 0`, none otherwise. -/
def PointRenderer.renderDraws (r : PointRenderer) : List (ℕ × ℕ) :=
  if r.num_points ≠ 0 then [(r.num_points * 3 % 2 ^ 32, 1)] else []

/-- The `Import` enum from `src/import.rs` (the image payload carries no further
semantics here). -/
inductive ImportV where
  | ply (data : PlyData)
  | image
deriving DecidableEq

/-- Outcome of running `import`: an `Ok` value, an `Err` result value
returned to the caller, or a panic (which unwinds instead of returning). -/
inductive RunResult (α : Type) where
  | ok (a : α)
  | error (msg : String)
  | panicked (msg : String)
deriving DecidableEq

/-- Model of `path.extension().and_then(OsStr::to_str).unwrap_or("no_extension")`. -/
def extOf (ext : Option String) : String :=
  ext.getD "no_extension"

/-- Control flow of `import` (`src/import.rs`): `File::open(path).unwrap()`
panics when the file cannot be opened; the `ply` arm propagates parser errors
with `?` (summarised by `parseOk`, with `all_vertices`/`faces` the parsed
payload on success) and panics on an out-of-range face index; the image arm
propagates reader/decoder errors with `?` (summarised by `decodeOk`); any
other extension returns a descriptive error. -/
def importRun (fileOpens : Bool) (ext : Option String) (parseOk decodeOk : Bool)
    (all_vertices : List Vertex) (faces : List (List ℤ)) : RunResult ImportV :=
  if fileOpens then
    match extOf ext with
    | "ply" =>
      if parseOk then
        match importPly all_vertices faces with
        | some data => .ok (.ply data)
        | none => .panicked "index out of bounds in face_vertices.push(all_vertices[index])"
      else
        .error "ply parse error"
    | "png" | "jpg" | "jpeg" =>
      if decodeOk then .ok .image else .error "image decode error"
    | e => .error ("Unknown file extension " ++ e)
  else
    .panicked "called unwrap on an Err value: File::open failed"

/-- IEEE-style scalar: exact finite rational, NaN, or a signed infinity.
The two IEEE zeroes are conflated; finite arithmetic is exact. -/
inductive F where
  | num (q : ℚ)
  | nan
  | pinf
  | ninf
deriving DecidableEq

def F.neg : F → F
  | num q => num (-q)
  | nan => nan
  | pinf => ninf
  | ninf => pinf

def F.add : F → F → F
  | num a, num b => num (a + b)
  | nan, _ => nan
  | _, nan => nan
  | pinf, ninf => nan
  | ninf, pinf => nan
  | pinf, _ => pinf
  | _, pinf => pinf
  | ninf, _ => ninf
  | _, ninf => ninf

def F.sub : F → F → F
  | num a, num b => num (a - b)
  | nan, _ => nan
  | _, nan => nan
  | pinf, pinf => nan
  | ninf, ninf => nan
  | pinf, _ => pinf
  | ninf, _ => ninf
  | _, pinf => ninf
  | _, ninf => pinf

def F.mul : F → F → F
  | num a, num b => num (a * b)
  | nan, _ => nan
  | _, nan => nan
  | pinf, pinf => pinf
  | pinf, ninf => ninf
  | ninf, pinf => ninf
  | ninf, ninf => pinf
  | pinf, num b => if b = 0 then nan else if 0 < b then pinf else ninf
  | num a, pinf => if a = 0 then nan else if 0 < a then pinf else ninf
  | ninf, num b => if b = 0 then nan else if 0 < b then ninf else pinf
  | num a, ninf => if a = 0 then nan else if 0 < a then ninf else pinf

def F.div : F → F → F
  | num a, num b =>
    if b = 0 then (if a = 0 then nan else if 0 < a then pinf else ninf) else num (a / b)
  | nan, _ => nan
  | _, nan => nan
  | pinf, pinf => nan
  | pinf, ninf => nan
  | ninf, pinf => nan
  | ninf, ninf => nan
  | pinf, num b => if 0 ≤ b then pinf else ninf
  | ninf, num b => if 0 ≤ b then ninf else pinf
  | num _, pinf => num 0
  | num _, ninf => num 0

/-- Vector of three IEEE-style scalars. -/
structure Vec3F where
  x : F
  y : F
  z : F
deriving DecidableEq

/-- Model of `avg_vertex_position` (`src/import.rs`): accumulate the coordinate sums,
then divide each by the vertex count — `0/0 → NaN` on an empty list.
Input positions are finite `f32` values, hence exact rationals. -/
def avg_vertex_position (vertices : List Vertex) : Vec3F :=
  let center := vertices.foldl (fun (c : Vec3) v => c.add v.position) ⟨0, 0, 0⟩
  let length : ℚ := vertices.length
  ⟨F.div (F.num center.x) (F.num length),
   F.div (F.num center.y) (F.num length),
   F.div (F.num center.z) (F.num length)⟩

/-- Model of `nalgebra::distance(&a, &p)` = `sqrt((aₓ-pₓ)² + … )`, with the floating
square root abstracted as `sqrtF`. -/
def distF (sqrtF : F → F) (a : Vec3F) (p : Vec3) : F :=
  sqrtF
    (F.add
      (F.add (F.mul (F.sub a.x (F.num p.x)) (F.sub a.x (F.num p.x)))
        (F.mul (F.sub a.y (F.num p.y)) (F.sub a.y (F.num p.y))))
      (F.mul (F.sub a.z (F.num p.z)) (F.sub a.z (F.num p.z))))

/-- Model of `avg_vertex_distance` (`src/import.rs`): sum the distances to the average
position, then divide by the vertex count — `0/0 → NaN` on an empty list. -/
def avg_vertex_distance (sqrtF : F → F) (avg : Vec3F) (vertices : List Vertex) : F :=
  let sum := vertices.foldl (fun s v => F.add s (distF sqrtF avg v.position)) (F.num 0)
  F.div sum (F.num (vertices.length : ℚ))

/-- The camera fields `set_camera_facing` writes, over IEEE-style scalars:
clip planes and the view translation. -/
structure CameraF where
  znear : F
  zfar : F
  view_tr : Vec3F
deriving DecidableEq

/-- Model of `Camera::set_camera_facing` over IEEE-style scalars:
`zfar = 100 * distance`, `znear = distance / 100`, and the view translation
of `T(0,0,distance) * T(-target)`. -/
def setCameraFacingF (c : CameraF) (target : Vec3F) (distance : F) : CameraF :=
  { c with
    zfar := F.mul (F.num 100) distance
    znear := F.div distance (F.num 100)
    view_tr := ⟨F.neg target.x, F.neg target.y, F.sub distance target.z⟩ }

/-- The camera-framing sequence run on PLY import (`src/main.rs`):
`avg_pos`, `avg_dist`, then `set_camera_facing(avg_pos, avg_dist * 5.0)`. -/
def frameFacing (sqrtF : F → F) (c : CameraF) (point_vertices : List Vertex) : CameraF :=
  let avg_pos := avg_vertex_position point_vertices
  let avg_dist := avg_vertex_distance sqrtF avg_pos point_vertices
  setCameraFacingF c avg_pos (F.mul avg_dist (F.num 5))

/-- Initial camera created by `State::create_initial_camera` (`src/state.rs`):
identity view, fovy 45, znear 0.1, zfar 100 (aspect for a 1920×1080 surface). -/
def initialCamera : Camera :=
  ⟨1920 / 1080, 45, 1 / 10, 100, ⟨Mat3.id, ⟨0, 0, 0⟩⟩⟩

/-- Sample vertex (origin, red). -/
def vA : Vertex :=
  ⟨⟨0, 0, 0⟩, ⟨1, 0, 0⟩⟩

/-- Sample vertex (unit x, green). -/
def vB : Vertex :=
  ⟨⟨1, 0, 0⟩, ⟨0, 1, 0⟩⟩

/-- Sample vertex (unit y, blue). -/
def vC : Vertex :=
  ⟨⟨0, 1, 0⟩, ⟨0, 0, 1⟩⟩

/-- Sample vertex (unit z, white). -/
def vD : Vertex :=
  ⟨⟨0, 0, 1⟩, ⟨1, 1, 1⟩⟩

/-- Sample parsed vertex list. -/
def avWit : List Vertex :=
  [vA, vB, vC, vD]

/-- A single quad face over `avWit`. -/
def facesWit : List (List ℤ) :=
  [[0, 1, 2, 3]]

/-- Result record: `importPly avWit facesWit` evaluates to exactly this. -/
def pdWit : PlyData :=
  ⟨[], [vA, vB, vC, vD], [0, 1, 2, 0, 2, 3]⟩

/-- A triangle face over `avWit` leaving vertex 0 unreferenced. -/
def facesWit2 : List (List ℤ) :=
  [[1, 2, 3]]

/-- Result record: `importPly avWit facesWit2` evaluates to exactly this. -/
def pdWit2 : PlyData :=
  ⟨[vA], [vB, vC, vD], [0, 1, 2]⟩

/-- A 130-point, no-face import. -/
def plyWitC1 : PlyData :=
  ⟨List.replicate 130 vA, [], []⟩

/-- A point set large enough that `num_points * 3` overflows `u32`. -/
def plyBig : PlyData :=
  ⟨List.replicate (2 ^ 31) vA, [], []⟩

/-- C9: `Camera::resize` sets the aspect ratio to `w/h` and leaves
`znear`, `zfar`, `fovy` and the rigid view transform unchanged. -/
theorem camera_resize_spec (c : Camera) (w h : ℕ) :
    (c.resize w h).aspect = (w : ℚ) / (h : ℚ) ∧
    (c.resize w h).znear = c.znear ∧
    (c.resize w h).zfar = c.zfar ∧
    (c.resize w h).fovy = c.fovy ∧
    (c.resize w h).view_matrix = c.view_matrix :=
  ⟨rfl, rfl, rfl, rfl, rfl⟩

/-- C2: `set_camera_facing(target, d)` with `d > 0` sets `znear = d/100`,
`zfar = 100*d`, places the camera exactly `d` units from `target` along the
viewing (z) axis (placement `target - d·e_z`, squared distance `d²`), and
the view transform maps `target` onto the viewing axis at depth `d`. -/
theorem set_camera_facing_spec (c : Camera) (target : Vec3) (d : ℚ) (hd : 0 < d) :
    (c.set_camera_facing target d).znear = d / 100 ∧
    (c.set_camera_facing target d).zfar = 100 * d ∧
    (c.set_camera_facing target d).position = target.sub (Vec3.smul d ⟨0, 0, 1⟩) ∧
    ((c.set_camera_facing target d).position.sub target).sqNorm = d ^ 2 ∧
    (c.set_camera_facing target d).view_matrix.apply target = ⟨0, 0, d⟩ := by
  refine ⟨rfl, rfl, ?_, ?_, ?_⟩
  · simp [Camera.set_camera_facing, Camera.position, Iso.comp, Iso.translationOf,
      Mat3.id, Mat3.mul, Mat3.mulVec, Mat3.transpose, Vec3.add, Vec3.neg, Vec3.sub,
      Vec3.smul]
    ring
  · simp [Camera.set_camera_facing, Camera.position, Iso.comp, Iso.translationOf,
      Mat3.id, Mat3.mul, Mat3.mulVec, Mat3.transpose, Vec3.add, Vec3.neg, Vec3.sub,
      Vec3.sqNorm]
    ring
  · simp [Camera.set_camera_facing, Iso.comp, Iso.translationOf, Iso.apply,
      Mat3.id, Mat3.mul, Mat3.mulVec, Vec3.add]

/-- Witness for `set_camera_facing_spec` at `target = (1,2,3)`, `d = 2`. -/
theorem set_camera_facing_spec_witness :
    (0 : ℚ) < 2 ∧
    ((initialCamera.set_camera_facing ⟨1, 2, 3⟩ 2).znear = 2 / 100 ∧
     (initialCamera.set_camera_facing ⟨1, 2, 3⟩ 2).zfar = 100 * 2 ∧
     (initialCamera.set_camera_facing ⟨1, 2, 3⟩ 2).position =
       Vec3.sub ⟨1, 2, 3⟩ (Vec3.smul 2 ⟨0, 0, 1⟩) ∧
     ((initialCamera.set_camera_facing ⟨1, 2, 3⟩ 2).position.sub ⟨1, 2, 3⟩).sqNorm = 2 ^ 2 ∧
     (initialCamera.set_camera_facing ⟨1, 2, 3⟩ 2).view_matrix.apply ⟨1, 2, 3⟩ = ⟨0, 0, 2⟩) :=
  ⟨by norm_num, set_camera_facing_spec initialCamera ⟨1, 2, 3⟩ 2 (by norm_num)⟩

/-- C7: with only the forward flag held, two camera updates over `dt₁` and
`dt₂` produce exactly the camera of a single update over `dt₁ + dt₂`. -/
theorem update_camera_forward_additive (sinq cosq : ℚ → ℚ) (speed sens : ℚ)
    (cam : Camera) (dt1 dt2 : ℚ) (h1 : 0 ≤ dt1) (h2 : 0 ≤ dt2) :
    (forwardOnly speed sens).update_camera sinq cosq
        ((forwardOnly speed sens).update_camera sinq cosq cam dt1) dt2 =
      (forwardOnly speed sens).update_camera sinq cosq cam (dt1 + dt2) := by
  simp [CameraController.update_camera, forwardOnly, CameraController.new,
    Iso.appendTranslation, Vec3.add, Vec3.smul]
  ring

/-- Witness for `update_camera_forward_additive` at `dt₁ = 1`, `dt₂ = 2`. -/
theorem update_camera_forward_additive_witness :
    (0 : ℚ) ≤ 1 ∧ (0 : ℚ) ≤ 2 ∧
    (forwardOnly 1 1).update_camera (fun _ => 0) (fun _ => 0)
        ((forwardOnly 1 1).update_camera (fun _ => 0) (fun _ => 0) initialCamera 1) 2 =
      (forwardOnly 1 1).update_camera (fun _ => 0) (fun _ => 0) initialCamera (1 + 2) :=
  ⟨by norm_num, by norm_num,
    update_camera_forward_additive (fun _ => 0) (fun _ => 0) 1 1 initialCamera 1 2
      (by norm_num) (by norm_num)⟩

/-- C8 counterexample: after two wheel line-delta events of `+1` each, the
scroll value is `-100`, not the accumulated sum `-(100·1) + -(100·1) = -200`:
`process_scroll` overwrites the field instead of accumulating. -/
theorem process_scroll_not_accumulated :
    (((CameraController.new 1 1).process_scroll (.lineDelta 0 1)).process_scroll
        (.lineDelta 0 1)).scroll = -100 ∧
    (((CameraController.new 1 1).process_scroll (.lineDelta 0 1)).process_scroll
        (.lineDelta 0 1)).scroll ≠ -(100 * 1) + -(100 * 1) := by
  constructor
  · norm_num [CameraController.process_scroll]
  · norm_num [CameraController.process_scroll]

/-- C8 (amended): each wheel event *replaces* the scroll value with the
sign-inverted delta scaled by 100 per line, so after a nonempty sequence of
line-delta events `s₁ … sₙ` the scroll value is `-(100·sₙ)`. -/
theorem process_scroll_last_write (c0 : CameraController) (ss : List ℚ) (h : ss ≠ []) :
    ((ss.map (MouseScrollDelta.lineDelta 0)).foldl CameraController.process_scroll c0).scroll =
      -(100 * ss.getLast h) := by
  induction ss generalizing c0 with
  | nil => exact absurd rfl h
  | cons a rest ih =>
    cases rest with
    | nil =>
      simp [CameraController.process_scroll]
      ring
    | cons b rest' =>
      rw [List.map_cons, List.foldl_cons,
        ih (c0.process_scroll (.lineDelta 0 a)) (by simp)]
      congr 1

/-- Witness for `process_scroll_last_write` with events `[2, 3]`. -/
theorem process_scroll_last_write_witness :
    ([2, 3] : List ℚ) ≠ [] ∧
    ((([2, 3] : List ℚ).map (MouseScrollDelta.lineDelta 0)).foldl
        CameraController.process_scroll (CameraController.new 1 1)).scroll =
      -(100 * ([2, 3] : List ℚ).getLast (by simp)) :=
  ⟨by simp, process_scroll_last_write (CameraController.new 1 1) [2, 3] (by simp)⟩

/-- C3: on an unopenable file `import` panics (it calls
`File::open(path).unwrap()`), and on a PLY face referencing an out-of-range
vertex index it panics (`all_vertices[index]`), instead of returning an error
result; an unrecognized extension does return a descriptive error value. -/
theorem import_panics_instead_of_err :
    importRun false (some "ply") true true [] [] =
      .panicked "called unwrap on an Err value: File::open failed" ∧
    importRun true (some "ply") true true [] [[0]] =
      .panicked "index out of bounds in face_vertices.push(all_vertices[index])" ∧
    importRun true (some "xyz") true true [] [] =
      .error ("Unknown file extension " ++ "xyz") := by
  refine ⟨rfl, ?_, rfl⟩
  rfl

/-- C4: framing a degenerate (empty) point set produces NaN clip planes:
`avg_vertex_position` and `avg_vertex_distance` compute `0/0 → NaN` on an
empty vertex list, and `set_camera_facing` then stores `NaN` into both
`znear` and `zfar` — no minimum-distance floor guards the computation. -/
theorem degenerate_framing_produces_nan (sqrtF : F → F) (c : CameraF) :
    (frameFacing sqrtF c []).znear = F.nan ∧ (frameFacing sqrtF c []).zfar = F.nan := by
  constructor <;> rfl

/-- The value `(n + 63) / 64` is the ceiling of `n / 64`. -/
theorem dispatchGroups_eq_ceil (n : ℕ) : dispatchGroups n = Nat.ceil ((n : ℚ) / 64) := by
  have h64 : (0 : ℚ) < 64 := by norm_num
  refine le_antisymm ?_ ?_
  · have hle : (n : ℚ) / 64 ≤ (Nat.ceil ((n : ℚ) / 64) : ℚ) := Nat.le_ceil _
    rw [div_le_iff h64] at hle
    have hn : n ≤ Nat.ceil ((n : ℚ) / 64) * 64 := by exact_mod_cast hle
    unfold dispatchGroups
    omega
  · refine Nat.ceil_le.2 ?_
    rw [div_le_iff h64]
    have hn : n ≤ dispatchGroups n * 64 := by
      unfold dispatchGroups
      omega
    exact_mod_cast hn

/-- C1 (amended): after `PointRenderer::import_ply` of a point set of size `N`
with `3·N < 2^32` (so the `u32` vertex count does not wrap), a positive `N`
yields exactly one compute dispatch of `⌈N/64⌉` workgroups and exactly one
draw of `3·N` vertices (N billboard triangles, one instance), while `N = 0`
yields no compute dispatch and no point draw call. -/
theorem point_renderer_dispatch_draw (r : PointRenderer) (ply : PlyData)
    (hN : 3 * ply.point_vertices.length < 2 ^ 32) :
    (0 < ply.point_vertices.length →
      (r.import_ply ply).computeDispatches =
        [(Nat.ceil ((ply.point_vertices.length : ℚ) / 64), 1, 1)] ∧
      (r.import_ply ply).renderDraws = [(3 * ply.point_vertices.length, 1)]) ∧
    (ply.point_vertices.length = 0 →
      (r.import_ply ply).computeDispatches = [] ∧ (r.import_ply ply).renderDraws = []) := by
  have hsmall : ply.point_vertices.length % 2 ^ 32 = ply.point_vertices.length :=
    Nat.mod_eq_of_lt (by omega)
  constructor
  · intro hpos
    constructor
    · rw [← dispatchGroups_eq_ceil]
      simp only [PointRenderer.computeDispatches, PointRenderer.import_ply, hsmall]
      rw [if_pos (by omega)]
    · simp only [PointRenderer.renderDraws, PointRenderer.import_ply, hsmall]
      rw [if_pos (by omega)]
      rw [Nat.mod_eq_of_lt (by omega)]
      rw [Nat.mul_comm]
  · intro hzero
    constructor
    · simp [PointRenderer.computeDispatches, PointRenderer.import_ply, hzero]
    · simp [PointRenderer.renderDraws, PointRenderer.import_ply, hzero]

/-- Witness for `point_renderer_dispatch_draw` on a 130-point import:
3 workgroups (`⌈130/64⌉`) and 390 drawn vertices. -/
theorem point_renderer_dispatch_draw_witness :
    3 * plyWitC1.point_vertices.length < 2 ^ 32 ∧
    ((0 < plyWitC1.point_vertices.length →
      ((PointRenderer.mk 0).import_ply plyWitC1).computeDispatches =
        [(Nat.ceil ((plyWitC1.point_vertices.length : ℚ) / 64), 1, 1)] ∧
      ((PointRenderer.mk 0).import_ply plyWitC1).renderDraws =
        [(3 * plyWitC1.point_vertices.length, 1)]) ∧
    (plyWitC1.point_vertices.length = 0 →
      ((PointRenderer.mk 0).import_ply plyWitC1).computeDispatches = [] ∧
      ((PointRenderer.mk 0).import_ply plyWitC1).renderDraws = [])) :=
  ⟨by simp [plyWitC1], point_renderer_dispatch_draw (PointRenderer.mk 0) plyWitC1
    (by simp [plyWitC1])⟩

set_option maxRecDepth 4000 in
/-- C1 counterexample: a point set of size `N = 2^31 > 0` (well-formed
`PlyData`, no faces) leads to a point draw of `2^31` vertices — the `u32`
product `num_points * 3` wraps — although the claim requires `3·N = 3·2^31`
drawn vertices. -/
theorem point_renderer_draw_overflow :
    plyBig.point_vertices.length = 2 ^ 31 ∧
    0 < 2 ^ 31 ∧
    ((PointRenderer.mk 0).import_ply plyBig).renderDraws = [(2 ^ 31, 1)] ∧
    (2 ^ 31 : ℕ) ≠ 3 * 2 ^ 31 := by
  have hlen : plyBig.point_vertices.length = 2 ^ 31 := List.length_replicate _ _
  refine ⟨hlen, by norm_num, ?_, by norm_num⟩
  rw [PointRenderer.import_ply, PointRenderer.renderDraws, hlen]
  norm_num

/-- Length of the fan tail: three indices per adjacent pair. -/
theorem fanTail_length (f : ℕ) (t : List ℕ) : (fanTail f t).length = 3 * (t.length - 1) := by
  induction t with
  | nil => simp [fanTail]
  | cons a rest ih =>
    cases rest with
    | nil => simp [fanTail]
    | cons b rest' =>
      simp only [fanTail, List.length_cons] at ih ⊢
      omega

/-- Length of a fan triangulation: three indices per triangle,
`len - 2` triangles (zero for degenerate faces). -/
theorem fanIndices_length (xs : List ℕ) : (fanIndices xs).length = 3 * (xs.length - 2) := by
  cases xs with
  | nil => simp [fanIndices]
  | cons f rest =>
    simp only [fanIndices, fanTail_length, List.length_cons]
    omega

/-- Every index emitted by the fan tail is the fan vertex or one of the
tail's indices. -/
theorem fanTail_subset {f x : ℕ} : ∀ {t : List ℕ}, x ∈ fanTail f t → x = f ∨ x ∈ t := by
  intro t
  induction t with
  | nil => intro h; simp [fanTail] at h
  | cons a rest ih =>
    cases rest with
    | nil => intro h; simp [fanTail] at h
    | cons b rest' =>
      intro h
      simp only [fanTail, List.mem_cons] at h
      rcases h with h | h | h | h
      · exact Or.inl h
      · exact Or.inr (by simp [h])
      · exact Or.inr (by simp [h])
      · rcases ih h with h1 | h1
        · exact Or.inl h1
        · exact Or.inr (List.mem_cons_of_mem _ h1)

/-- Every index emitted by a fan triangulation is one of the face's indices. -/
theorem fanIndices_subset {xs : List ℕ} {x : ℕ} (h : x ∈ fanIndices xs) : x ∈ xs := by
  cases xs with
  | nil => simp [fanIndices] at h
  | cons f rest =>
    simp only [fanIndices] at h
    rcases fanTail_subset h with h1 | h1
    · simp [h1]
    · exact List.mem_cons_of_mem _ h1

/-- The `j`-th triple of the fan tail is `(f, t[j], t[j+1])`. -/
theorem fanTail_get (f : ℕ) : ∀ (j : ℕ) (t : List ℕ), j + 2 ≤ t.length →
    (fanTail f t)[3 * j]? = some f ∧ (fanTail f t)[3 * j + 1]? = t[j]? ∧
    (fanTail f t)[3 * j + 2]? = t[j + 1]? := by
  intro j
  induction j with
  | zero =>
    intro t ht
    cases t with
    | nil => simp at ht
    | cons a rest =>
      cases rest with
      | nil => simp at ht
      | cons b rest' => simp [fanTail]
  | succ j ih =>
    intro t ht
    cases t with
    | nil => simp at ht
    | cons a rest =>
      cases rest with
      | nil => simp at ht
      | cons b rest' =>
        have ih' := ih (b :: rest') (by simp only [List.length_cons] at ht ⊢; omega)
        refine ⟨?_, ?_, ?_⟩
        · have h3 : 3 * (j + 1) = 3 * j + 1 + 1 + 1 := by ring
          rw [h3]
          simp only [fanTail, List.getElem?_cons_succ]
          exact ih'.1
        · have h3 : 3 * (j + 1) + 1 = 3 * j + 1 + 1 + 1 + 1 := by ring
          rw [h3]
          simp only [fanTail, List.getElem?_cons_succ]
          simpa only [List.getElem?_cons_succ] using ih'.2.1
        · have h3 : 3 * (j + 1) + 2 = 3 * j + 2 + 1 + 1 + 1 := by ring
          rw [h3]
          simp only [fanTail, List.getElem?_cons_succ]
          simpa only [List.getElem?_cons_succ] using ih'.2.2

/-- C5: fan triangulation of `[a,b,c,d]` yields exactly the triples
`(a,b,c)`, `(a,c,d)` in that order; in general, for a face with at least
three indices, there are `len - 2` triples, and the `j`-th triple is
`(xs[0], xs[j+1], xs[j+2])`. -/
theorem fan_triangulation_spec (a b c d : ℕ) (xs : List ℕ) (j : ℕ)
    (hj : j + 3 ≤ xs.length) :
    fanIndices [a, b, c, d] = [a, b, c, a, c, d] ∧
    (fanIndices xs).length = 3 * (xs.length - 2) ∧
    (fanIndices xs)[3 * j]? = xs[0]? ∧
    (fanIndices xs)[3 * j + 1]? = xs[j + 1]? ∧
    (fanIndices xs)[3 * j + 2]? = xs[j + 2]? := by
  cases xs with
  | nil => simp at hj
  | cons f rest =>
    have hlen : j + 2 ≤ rest.length := by
      simp only [List.length_cons] at hj
      omega
    have h := fanTail_get f j rest hlen
    refine ⟨rfl, fanIndices_length _, ?_, ?_, ?_⟩
    · simpa [fanIndices] using h.1
    · simpa [fanIndices] using h.2.1
    · simpa [fanIndices] using h.2.2

/-- Witness for `fan_triangulation_spec`: face `[5,6,7,8,9]`, second
triple `(5,7,8)`. -/
theorem fan_triangulation_spec_witness :
    1 + 3 ≤ ([5, 6, 7, 8, 9] : List ℕ).length ∧
    (fanIndices [10, 11, 12, 13] = [10, 11, 12, 10, 12, 13] ∧
     (fanIndices [5, 6, 7, 8, 9]).length = 3 * (([5, 6, 7, 8, 9] : List ℕ).length - 2) ∧
     (fanIndices [5, 6, 7, 8, 9])[3 * 1]? = ([5, 6, 7, 8, 9] : List ℕ)[0]? ∧
     (fanIndices [5, 6, 7, 8, 9])[3 * 1 + 1]? = ([5, 6, 7, 8, 9] : List ℕ)[1 + 1]? ∧
     (fanIndices [5, 6, 7, 8, 9])[3 * 1 + 2]? = ([5, 6, 7, 8, 9] : List ℕ)[1 + 2]?) :=
  ⟨by simp, fan_triangulation_spec 10 11 12 13 [5, 6, 7, 8, 9] 1 (by simp)⟩

/-- A successful association-list lookup returns a recorded pair. -/
theorem lookupA_mem : ∀ {l : List (ℕ × ℕ)} {i j : ℕ}, lookupA l i = some j → (i, j) ∈ l := by
  intro l
  induction l with
  | nil => intro i j h; simp [lookupA] at h
  | cons p rest ih =>
    intro i j h
    obtain ⟨k, v⟩ := p
    by_cases hk : k = i
    · subst hk
      rw [lookupA, if_pos rfl] at h
      simp only [Option.some.injEq] at h
      subst h
      exact List.mem_cons_self _ _
    · rw [lookupA, if_neg hk] at h
      exact List.mem_cons_of_mem _ (ih h)

/-- An existential over a cons cell splits into head and tail cases. -/
theorem existsMemConsIff {α : Type} {p : α → Prop} {a : α} {l : List α} :
    (∃ x ∈ a :: l, p x) ↔ p a ∨ ∃ x ∈ l, p x := by
  constructor
  · rintro ⟨x, hx, hp⟩
    rcases List.mem_cons.1 hx with rfl | hx'
    · exact Or.inl hp
    · exact Or.inr ⟨x, hx', hp⟩
  · rintro (hp | ⟨x, hx, hp⟩)
    · exact ⟨a, List.mem_cons_self _ _, hp⟩
    · exact ⟨x, List.mem_cons_of_mem _ hx, hp⟩

/-- The closure `get_or_insert_vertex` returns a position inside the (possibly grown)
face-vertex vector, only grows that vector, preserves the map's
position bounds, leaves `face_indices` untouched, and makes exactly the key
`i` newly present in the map. -/
theorem getOrInsertVertex_spec {av : List Vertex} {s : TessState} {i j : ℕ} {s' : TessState}
    (hmap : ∀ p ∈ s.assoc, p.2 < s.face_vertices.length)
    (h : getOrInsertVertex av s i = some (j, s')) :
    j < s'.face_vertices.length ∧
    s.face_vertices.length ≤ s'.face_vertices.length ∧
    (∀ p ∈ s'.assoc, p.2 < s'.face_vertices.length) ∧
    s'.face_indices = s.face_indices ∧
    (∀ k, (lookupA s'.assoc k).isSome = true ↔
      ((lookupA s.assoc k).isSome = true ∨ k = i)) := by
  unfold getOrInsertVertex at h
  cases hl : lookupA s.assoc i with
  | some j0 =>
    rw [hl] at h
    simp only [Option.some.injEq, Prod.mk.injEq] at h
    obtain ⟨h1, h2⟩ := h
    subst h1
    subst h2
    refine ⟨hmap _ (lookupA_mem hl), le_refl _, hmap, rfl, ?_⟩
    intro k
    constructor
    · exact fun hk => Or.inl hk
    · rintro (hk | rfl)
      · exact hk
      · rw [hl]
        rfl
  | none =>
    rw [hl] at h
    cases hv : av[i]? with
    | none =>
      rw [hv] at h
      cases h
    | some v =>
      rw [hv] at h
      simp only [Option.some.injEq, Prod.mk.injEq] at h
      obtain ⟨h1, h2⟩ := h
      subst h1
      subst h2
      simp only [List.length_append, List.length_cons, List.length_nil]
      refine ⟨by omega, by omega, ?_, trivial, ?_⟩
      · rintro p hp
        rcases List.mem_cons.1 hp with rfl | hp'
        · exact Nat.lt_succ_self _
        · have := hmap _ hp'
          omega
      · intro k
        by_cases hk : i = k
        · subst hk
          simp [lookupA]
        · simp only [lookupA, if_neg hk]
          constructor
          · exact fun hs => Or.inl hs
          · rintro (hs | rfl)
            · exact hs
            · exact absurd rfl hk

/-- Mapping one face's index list through `get_or_insert_vertex`:
all returned positions are inside the final face-vertex vector, the vector
only grows, map bounds are preserved, `face_indices` is untouched, and the
map's keys grow by exactly the face's indices. -/
theorem mapFaceIndices_spec {av : List Vertex} :
    ∀ {l : List ℕ} {s : TessState} {js : List ℕ} {s' : TessState},
    (∀ p ∈ s.assoc, p.2 < s.face_vertices.length) →
    mapFaceIndices av s l = some (js, s') →
    (∀ j ∈ js, j < s'.face_vertices.length) ∧
    s.face_vertices.length ≤ s'.face_vertices.length ∧
    (∀ p ∈ s'.assoc, p.2 < s'.face_vertices.length) ∧
    s'.face_indices = s.face_indices ∧
    (∀ k, (lookupA s'.assoc k).isSome = true ↔
      ((lookupA s.assoc k).isSome = true ∨ k ∈ l)) := by
  intro l
  induction l with
  | nil =>
    intro s js s' hmap h
    simp only [mapFaceIndices, Option.some.injEq, Prod.mk.injEq] at h
    obtain ⟨h1, h2⟩ := h
    subst h1
    subst h2
    exact ⟨by simp, le_refl _, hmap, rfl, by simp⟩
  | cons i rest ih =>
    intro s js s' hmap h
    cases hg : getOrInsertVertex av s i with
    | none =>
      rw [mapFaceIndices, hg] at h
      exact Option.noConfusion h
    | some p =>
      obtain ⟨j, s1⟩ := p
      cases hm : mapFaceIndices av s1 rest with
      | none =>
        rw [mapFaceIndices, hg] at h
        simp only [hm] at h
        exact Option.noConfusion h
      | some q =>
        obtain ⟨js2, s2⟩ := q
        rw [mapFaceIndices, hg] at h
        simp only [hm, Option.some.injEq, Prod.mk.injEq] at h
        obtain ⟨h1, h2⟩ := h
        subst h1
        subst h2
        have G := getOrInsertVertex_spec hmap hg
        have M := ih G.2.2.1 hm
        refine ⟨?_, le_trans G.2.1 M.2.1, M.2.2.1, M.2.2.2.1.trans G.2.2.2.1, ?_⟩
        · intro x hx
          rcases List.mem_cons.1 hx with rfl | hx'
          · exact lt_of_lt_of_le G.1 M.2.1
          · exact M.1 _ hx'
        · intro k
          rw [M.2.2.2.2 k, G.2.2.2.2 k, List.mem_cons]
          tauto

/-- Processing one face preserves the map bound, keeps every recorded face
index below the face-vertex count, keeps the index count a multiple of 3, and
adds exactly the face's (usize-cast) indices to the map's keys. -/
theorem tessFace_spec {av : List Vertex} {s : TessState} {face : List ℤ} {s' : TessState}
    (hmap : ∀ p ∈ s.assoc, p.2 < s.face_vertices.length)
    (hidx : ∀ x ∈ s.face_indices, x < s.face_vertices.length)
    (hmod : s.face_indices.length % 3 = 0)
    (h : tessFace av s face = some s') :
    (∀ p ∈ s'.assoc, p.2 < s'.face_vertices.length) ∧
    (∀ x ∈ s'.face_indices, x < s'.face_vertices.length) ∧
    s'.face_indices.length % 3 = 0 ∧
    (∀ k, (lookupA s'.assoc k).isSome = true ↔
      ((lookupA s.assoc k).isSome = true ∨ k ∈ face.map castUsize)) := by
  cases hm : mapFaceIndices av s (face.map castUsize) with
  | none =>
    rw [tessFace, hm] at h
    exact Option.noConfusion h
  | some q =>
    obtain ⟨js, s1⟩ := q
    rw [tessFace, hm] at h
    simp only [Option.some.injEq] at h
    subst h
    have M := mapFaceIndices_spec hmap hm
    refine ⟨M.2.2.1, ?_, ?_, M.2.2.2.2⟩
    · intro x hx
      rcases List.mem_append.1 hx with hx' | hx'
      · rw [M.2.2.2.1] at hx'
        exact lt_of_lt_of_le (hidx _ hx') M.2.1
      · rcases List.mem_map.1 hx' with ⟨y, hy, rfl⟩
        exact lt_of_le_of_lt (Nat.mod_le _ _) (M.1 _ (fanIndices_subset hy))
    · simp only [List.length_append, List.length_map, fanIndices_length,
        M.2.2.2.1]
      omega

/-- The tessellation loop: starting from a state satisfying the invariants,
a successful run keeps every face index below the face-vertex count, keeps
the index count a multiple of 3, and its final map keys are the starting
keys plus every index referenced by some processed face. -/
theorem tessAll_spec {av : List Vertex} :
    ∀ {faces : List (List ℤ)} {s s' : TessState},
    (∀ p ∈ s.assoc, p.2 < s.face_vertices.length) →
    (∀ x ∈ s.face_indices, x < s.face_vertices.length) →
    s.face_indices.length % 3 = 0 →
    tessAll av faces s = some s' →
    (∀ x ∈ s'.face_indices, x < s'.face_vertices.length) ∧
    s'.face_indices.length % 3 = 0 ∧
    (∀ k, (lookupA s'.assoc k).isSome = true ↔
      ((lookupA s.assoc k).isSome = true ∨ ∃ f ∈ faces, k ∈ f.map castUsize)) := by
  intro faces
  induction faces with
  | nil =>
    intro s s' hmap hidx hmod h
    simp only [tessAll, Option.some.injEq] at h
    subst h
    refine ⟨hidx, hmod, ?_⟩
    simp
  | cons face rest ih =>
    intro s s' hmap hidx hmod h
    cases ht : tessFace av s face with
    | none =>
      rw [tessAll, ht] at h
      exact Option.noConfusion h
    | some s1 =>
      rw [tessAll, ht] at h
      have T := tessFace_spec hmap hidx hmod ht
      have hmap1 := T.1
      have hidx1 := T.2.1
      have hmod1 := T.2.2.1
      have M := ih hmap1 hidx1 hmod1 h
      refine ⟨M.1, M.2.1, ?_⟩
      intro k
      rw [M.2.2 k, T.2.2.2 k, existsMemConsIff]
      tauto

/-- C6: for every successful PLY import, each entry of `face_indices` is
strictly below the length of `face_vertices`, and the number of face indices
is a multiple of 3. -/
theorem import_face_invariants (av : List Vertex) (faces : List (List ℤ)) (pd : PlyData)
    (h : importPly av faces = some pd) :
    (∀ x ∈ pd.face_indices, x < pd.face_vertices.length) ∧
    pd.face_indices.length % 3 = 0 := by
  cases ht : tessAll av faces tessInit with
  | none =>
    rw [importPly, ht] at h
    exact Option.noConfusion h
  | some s =>
    rw [importPly, ht] at h
    simp only [Option.some.injEq] at h
    subst h
    have T := tessAll_spec (by simp [tessInit]) (by simp [tessInit]) (by simp [tessInit]) ht
    exact ⟨T.1, T.2.1⟩

/-- Witness for `import_face_invariants` on a four-vertex quad import. -/
theorem import_face_invariants_witness :
    (∀ x ∈ pdWit.face_indices, x < pdWit.face_vertices.length) ∧
    pdWit.face_indices.length % 3 = 0 :=
  import_face_invariants avWit facesWit pdWit (by rfl)

/-- C10: for every successful PLY import, the point set handed to the point
renderer is exactly the parsed vertices not referenced (after the `as usize`
cast) by any face's index list, in parse order. -/
theorem import_point_partition (av : List Vertex) (faces : List (List ℤ)) (pd : PlyData)
    (h : importPly av faces = some pd) :
    pd.point_vertices =
      ((av.enum.filter fun p => !referencedB faces p.1).map Prod.snd) := by
  cases ht : tessAll av faces tessInit with
  | none =>
    rw [importPly, ht] at h
    exact Option.noConfusion h
  | some s =>
    rw [importPly, ht] at h
    simp only [Option.some.injEq] at h
    subst h
    have T := tessAll_spec (by simp [tessInit]) (by simp [tessInit]) (by simp [tessInit]) ht
    show ((av.enum.filter fun p => (lookupA s.assoc p.1).isNone).map Prod.snd) = _
    congr 1
    apply List.filter_congr
    intro p hp
    have hiff := T.2.2 p.1
    have hbase : (lookupA tessInit.assoc p.1).isSome = false := rfl
    rw [hbase] at hiff
    simp only [Bool.false_eq_true, false_or] at hiff
    have h1 : (lookupA s.assoc p.1).isSome = referencedB faces p.1 := by
      rw [Bool.eq_iff_iff, hiff]
      simp [referencedB, List.any_eq_true, List.mem_map]
    rw [← h1]
    cases lookupA s.assoc p.1 <;> rfl

/-- Witness for `import_point_partition`: a triangle face over vertices
1–3 leaves exactly vertex 0 in the point set. -/
theorem import_point_partition_witness :
    pdWit2.point_vertices =
      ((avWit.enum.filter fun p => !referencedB facesWit2 p.1).map Prod.snd) :=
  import_point_partition avWit facesWit2 pdWit2 (by rfl)
